import Mathlib

set_option maxRecDepth 10000

/-!
Verification development for the `ives` Hacker-News job/candidate matcher.

The definitions below are a shallow embedding of the Python sources
(`job_matcher.py` and `get_data.py`).  Strings are modelled as `List Char`
or `String`, Python `None`-able fields as `Option String`, Python `set`s as
`Finset String`, and CPython `float` arithmetic (where the program relies on
it) as exact rational arithmetic composed with an explicit model of IEEE-754
binary64 round-to-nearest-even.  Case conversion is modelled on the ASCII
range, which covers every vocabulary entry and pattern literal in the source.
-/

/-- Python whitespace (the `\s` class and `str.strip`), ASCII range. -/
def pyIsSpace (c : Char) : Bool :=
  c = ' ' || c = '\t' || c = '\n' || c = '\r' || c = '\x0b' || c = '\x0c'

/-- ASCII lowercasing of one character (`str.lower`). -/
def pyLowerChar (c : Char) : Char :=
  if h : 65 ≤ c.toNat ∧ c.toNat ≤ 90 then
    Char.ofNatAux (c.toNat + 32) (Or.inl (by omega))
  else c

/-- ASCII uppercasing of one character (`str.upper`). -/
def pyUpperChar (c : Char) : Char :=
  if h : 97 ≤ c.toNat ∧ c.toNat ≤ 122 then
    Char.ofNatAux (c.toNat - 32) (Or.inl (by omega))
  else c

/-- ASCII lowercasing of a Python string (`str.lower`). -/
def pyLower (l : List Char) : List Char := l.map pyLowerChar

/-- Python `\w`: ASCII letters, digits and underscore. -/
def isWordChar (c : Char) : Bool :=
  (48 ≤ c.toNat && c.toNat ≤ 57) || (65 ≤ c.toNat && c.toNat ≤ 90) ||
  (97 ≤ c.toNat && c.toNat ≤ 122) || c = '_'

/-- Exact prefix test on character lists. -/
def isPrefOf : List Char → List Char → Bool
  | [], _ => true
  | _ :: _, [] => false
  | a :: as, b :: bs => a = b && isPrefOf as bs

/-- Python substring containment (`needle in hay`). -/
def subIn (n : List Char) : List Char → Bool
  | [] => n.isEmpty
  | c :: t => isPrefOf n (c :: t) || subIn n t

/-- Drop trailing Python whitespace (the right half of `str.strip`). -/
def dropTrailingWs : List Char → List Char
  | [] => []
  | c :: cs =>
    let r := dropTrailingWs cs
    if r.isEmpty && pyIsSpace c then [] else c :: r

/-- Python `str.strip`. -/
def pyStrip (l : List Char) : List Char := dropTrailingWs (l.dropWhile pyIsSpace)

/-- One pass of `re.sub(r'\s+', ' ', text)`: every maximal whitespace run
becomes a single space.  The `Bool` records a pending whitespace run. -/
def collapseWsGo : Bool → List Char → List Char
  | pending, [] => if pending then [' '] else []
  | pending, c :: cs =>
    if pyIsSpace c then collapseWsGo true cs
    else (if pending then [' '] else []) ++ c :: collapseWsGo false cs

/-- Python truthiness of an optional string: `None` and `""` are falsy. -/
def truthy (o : Option String) : Bool := !(o.getD (("" : String))).data.isEmpty

namespace JobMatcher

/-- `normalize_text` from `job_matcher.py`: lowercase, replace every
non-word non-space character by a space, collapse whitespace runs, strip.
`None` and the empty string both short-circuit to the empty result
(the Python guard `if not text`). -/
def normalize_text (t : Option String) : List Char :=
  match t with
  | none => []
  | some s =>
    if s.isEmpty then [] else
    pyStrip (collapseWsGo false
      ((pyLower s.data).map (fun c => if isWordChar c || pyIsSpace c then c else ' ')))

/-- The `tech_keywords` vocabulary of `job_matcher.extract_technologies`,
in source order. -/
def techKeywords : List String :=
  [("javascript" : String), ("typescript" : String), ("python" : String),
   ("java" : String), ("c#" : String), ("c++" : String), ("ruby" : String),
   ("php" : String), ("swift" : String), ("kotlin" : String),
   ("react" : String), ("angular" : String), ("vue" : String),
   ("node" : String), ("django" : String), ("flask" : String),
   ("rails" : String), ("spring" : String), ("laravel" : String),
   ("aws" : String), ("azure" : String), ("gcp" : String),
   ("mongodb" : String), ("mysql" : String), ("postgresql" : String),
   ("sql" : String), ("nosql" : String), ("docker" : String),
   ("kubernetes" : String), ("git" : String), ("devops" : String),
   ("mobile" : String), ("android" : String), ("ios" : String),
   ("frontend" : String), ("backend" : String), ("fullstack" : String),
   ("ui" : String), ("ux" : String), ("machine learning" : String),
   ("ml" : String), ("ai" : String), ("data science" : String),
   ("blockchain" : String), ("eth" : String), ("rust" : String),
   ("go" : String), ("golang" : String)]

/-- `extract_technologies` from `job_matcher.py`: the set of vocabulary
keywords `k` with `f' {k} '` a substring of `f' {normalize_text text} '`.
The result is a Python `set`, modelled as a `Finset`. -/
def extract_technologies (t : Option String) : Finset String :=
  match t with
  | none => ∅
  | some s =>
    if s.isEmpty then ∅ else
    (techKeywords.filter (fun k =>
      subIn (' ' :: k.data ++ [' ']) (' ' :: normalize_text (some s) ++ [' ']))).toFinset

end JobMatcher

/-! ### Exact model of the CPython float computations used by the scorers

A nonnegative binary64 float is represented exactly as a dyadic rational
`s / 2 ^ k` (a pair `(s, k)` of naturals).  `fround a b` is the correctly
rounded (round-to-nearest, ties-to-even) binary64 value of the positive
rational `a / b`, valid on the normal range with value below `2 ^ 53` —
which covers every value the scorers produce. -/

/-- Round `a / b` to the nearest integer, ties to even (`b > 0`). -/
def rneNat (a b : ℕ) : ℕ :=
  let f := a / b
  let r := a % b
  if 2 * r < b then f else if b < 2 * r then f + 1
  else if f % 2 = 0 then f else f + 1

/-- The binade of the positive rational `a / b`: the largest
`e ∈ [-64, 64]` with `2 ^ e ≤ a / b`. -/
def binade (a b : ℕ) : ℤ :=
  (((List.range 129).map (fun i => (i : ℤ) - 64)).filter
    (fun e =>
      if 0 ≤ e then decide (2 ^ e.toNat * b ≤ a) else decide (b ≤ a * 2 ^ (-e).toNat)))
    |>.foldr max (-64)

/-- Round-to-nearest-even binary64 value of `a / b`, as a dyadic pair
`(s, k)` denoting `s / 2 ^ k`. -/
def fround (a b : ℕ) : ℕ × ℕ :=
  if a = 0 then (0, 0) else
  let e := binade a b
  let k := (52 - e).toNat
  (rneNat (a * 2 ^ k) b, k)

/-- Model of the Python expression `int((a / b) * w)` computed on binary64
floats: one rounded division, one rounded multiplication, one truncation. -/
def pyPct (w a b : ℕ) : ℕ :=
  let d1 := fround a b
  let d2 := fround (w * d1.1) (2 ^ d1.2)
  d2.1 / 2 ^ d2.2

/-! ### The match scoring engine (`job_matcher.calculate_match_score`) -/

/-- A candidate record, as extracted by `extract_candidate_fields`.  The
`Date` and `Link to HN` metadata fields do not influence any claim and are
omitted; every extractable field is an `Option String` (`None` = absent). -/
structure Candidate where
  email : Option String := none
  resume : Option String := none
  location : Option String := none
  remote : Option String := none
  willingToRelocate : Option String := none
  technologies : Option String := none
  rawText : String := ("" : String)
deriving DecidableEq

/-- A job record, as extracted by `extract_job_fields` (metadata omitted). -/
structure Job where
  company : Option String := none
  position : Option String := none
  location : Option String := none
  remote : Option String := none
  salary : Option String := none
  technologies : Option String := none
  applyContact : Option String := none
  rawText : String := ("" : String)
deriving DecidableEq

namespace JobMatcher

/-- Characters of the literal `"yes"`. -/
def yesL : List Char := ("yes" : String).data

/-- Characters of the literal `"remote"`. -/
def remoteL : List Char := ("remote" : String).data

/-- The remote-preference component of `calculate_match_score`
(`+25` when the candidate says yes and the job says yes/remote). -/
def remoteScore (c : Candidate) (j : Job) : ℕ :=
  if truthy j.remote && truthy c.remote then
    if subIn yesL (pyLower (c.remote.getD (("" : String))).data) then
      if subIn yesL (pyLower (j.remote.getD (("" : String))).data)
         || subIn remoteL (pyLower (j.remote.getD (("" : String))).data)
      then 25 else 0
    else 0
  else 0

/-- The location component of `calculate_match_score` (`+20` on a mutual
substring match of the normalized locations, else `+10` for an affirmative
willing-to-relocate, else 0; 0 whenever either location is falsy). -/
def locationScore (c : Candidate) (j : Job) : ℕ :=
  if truthy j.location && truthy c.location then
    let jl := normalize_text j.location
    let cl := normalize_text c.location
    if subIn jl cl || subIn cl jl then 20
    else if truthy c.willingToRelocate
            && subIn yesL (pyLower (c.willingToRelocate.getD (("" : String))).data)
    then 10 else 0
  else 0

/-- The candidate's extracted technology set. -/
def candTech (c : Candidate) : Finset String := extract_technologies c.technologies

/-- The job's extracted technology set. -/
def jobTech (j : Job) : Finset String := extract_technologies j.technologies

/-- The technology-overlap component of `calculate_match_score`: when both
sets are non-empty, `int(len(matching) / len(job_tech) * 55)` computed in
float arithmetic; otherwise 0. -/
def techScore (c : Candidate) (j : Job) : ℕ :=
  if candTech c ≠ ∅ ∧ jobTech j ≠ ∅ then
    let pct : ℕ × ℕ :=
      if jobTech j ≠ ∅ then fround ((candTech c ∩ jobTech j).card) ((jobTech j).card)
      else (0, 0)
    let d2 := fround (55 * pct.1) (2 ^ pct.2)
    d2.1 / 2 ^ d2.2
  else 0

/-- The result of `calculate_match_score`: the capped score together with
the contents of the `score_details` map (each contributing component and,
when the technology branch ran, the `matching_tech` list-as-set). -/
structure MatchResult where
  score : ℕ
  remoteDetail : ℕ
  locationDetail : ℕ
  techDetail : ℕ
  matching_tech : Option (Finset String)
deriving DecidableEq

/-- `calculate_match_score` from `job_matcher.py`. -/
def calculate_match_score (c : Candidate) (j : Job) : MatchResult :=
  let r := remoteScore c j
  let l := locationScore c j
  let t := techScore c j
  { score := min 100 (r + l + t)
    remoteDetail := r
    locationDetail := l
    techDetail := t
    matching_tech :=
      if candTech c ≠ ∅ ∧ jobTech j ≠ ∅ then some (candTech c ∩ jobTech j)
      else none }

end JobMatcher

namespace GetData

/-- A Qdrant point payload as used by `get_data.match_candidates_for_job`:
only the fields its scoring loop reads. -/
structure Payload where
  technologies : List String := []
  remote : Option String := none
  location : Option String := none
deriving DecidableEq

/-- The candidate score computed inside `get_data.match_candidates_for_job`:
`int(len(matching) / len(job_techs) * 100)` (on floats, 0 when the job lists
no technologies) plus a `+10` remote bonus and a `+10` location bonus. -/
def match_candidates_for_job_score (job cand : Payload) : ℕ :=
  let jobTechs := job.technologies.toFinset
  let candTechs := cand.technologies.toFinset
  let matching := jobTechs ∩ candTechs
  let pct := if jobTechs ≠ ∅ then pyPct 100 matching.card jobTechs.card else 0
  let bonus1 :=
    if job.remote = some (("Yes" : String)) ∧ cand.remote = some (("Yes" : String))
    then 10 else 0
  let bonus2 :=
    if truthy job.location ∧ truthy cand.location ∧
       (subIn (pyLower (job.location.getD (("" : String))).data)
              (pyLower (cand.location.getD (("" : String))).data) ∨
        subIn (pyLower (cand.location.getD (("" : String))).data)
              (pyLower (job.location.getD (("" : String))).data))
    then 10 else 0
  pct + bonus1 + bonus2

end GetData

/-! ### Claims about the scoring engine -/

/-- The spec's end-to-end example candidate. -/
def exCand : Candidate :=
  { location := some (("Berlin" : String)), remote := some (("Yes" : String)),
    technologies := some (("Python, React, Docker" : String)) }

/-- The spec's end-to-end example job. -/
def exJob : Job :=
  { location := some (("Berlin, Germany" : String)),
    remote := some (("Remote OK" : String)),
    technologies := some (("python, docker, kubernetes" : String)) }

/-- **C1**: scoring the spec's example candidate (Remote "Yes", Location
"Berlin", Technologies "Python, React, Docker") against the spec's example
job (Remote "Remote OK", Location "Berlin, Germany", Technologies python/
docker/kubernetes) yields remote +25, location +20, technology
`floor(55 * 2/3) = 36`, total 81, and matching technologies {python, docker}. -/
theorem c1_end_to_end_example :
    (JobMatcher.calculate_match_score exCand exJob).remoteDetail = 25 ∧
    (JobMatcher.calculate_match_score exCand exJob).locationDetail = 20 ∧
    (JobMatcher.calculate_match_score exCand exJob).techDetail = 36 ∧
    55 * 2 / 3 = 36 ∧
    (JobMatcher.calculate_match_score exCand exJob).score = 81 ∧
    (JobMatcher.calculate_match_score exCand exJob).matching_tech =
      some ({("python" : String), ("docker" : String)} : Finset String) := by
  decide

/-- A candidate whose extracted technology set meets exactly 3 entries of
the 11-entry job set below. -/
def c3cand : Candidate :=
  { technologies := some (("python, java, ruby" : String)) }

/-- A job declaring 11 vocabulary technologies. -/
def c3job : Job :=
  { technologies :=
      some (("python, java, ruby, php, react, angular, vue, node, django, flask, rails" : String)) }

/-- **C3**: the code computes the technology component as
`int(len(inter) / len(job) * 55)` on binary64 floats, which at
`|inter| = 3`, `|job| = 11` yields 14, while the claimed exact
`floor(55 * 3 / 11)` is 15; the empty-job-technology guard itself does hold
(component 0 for every candidate when the job's set is empty). -/
theorem c3_tech_component_divergence :
    (JobMatcher.jobTech c3job).card = 11 ∧
    (JobMatcher.candTech c3cand ∩ JobMatcher.jobTech c3job).card = 3 ∧
    (JobMatcher.calculate_match_score c3cand c3job).techDetail = 14 ∧
    55 * 3 / 11 = 15 ∧
    (JobMatcher.calculate_match_score c3cand c3job).techDetail ≠ 55 * 3 / 11 ∧
    (∀ c : Candidate, JobMatcher.techScore c ({ technologies := none } : Job) = 0) := by
  refine ⟨by decide, by decide, by decide, by decide, by decide, ?_⟩
  intro c
  simp [JobMatcher.techScore, JobMatcher.jobTech, JobMatcher.extract_technologies]

/-- Example payloads on which `get_data.match_candidates_for_job` scores
a candidate at 120. -/
def c4job : GetData.Payload :=
  { technologies := [("python" : String)], remote := some (("Yes" : String)),
    location := some (("Berlin" : String)) }

/-- The matching candidate payload for the 120-point example. -/
def c4cand : GetData.Payload :=
  { technologies := [("python" : String)], remote := some (("Yes" : String)),
    location := some (("Berlin" : String)) }

/-- **C4** (amended): the score of `calculate_match_score` is an integer in
[0, 100] (it is capped by `min(100, ...)` and is a natural number); the
candidate-ranking score of `get_data.match_candidates_for_job` is not so
bounded — a full technology match plus both bonuses reaches 120. -/
theorem c4_score_bounds :
    (∀ (c : Candidate) (j : Job), (JobMatcher.calculate_match_score c j).score ≤ 100) ∧
    GetData.match_candidates_for_job_score c4job c4cand = 120 := by
  refine ⟨fun c j => ?_, by decide⟩
  simp only [JobMatcher.calculate_match_score]
  exact Nat.min_le_left _ _

/-- **C4** counterexample: at the concrete payloads above, the
`match_candidates_for_job` score equals 120, violating the claimed
upper bound of 100. -/
theorem c4_counterexample :
    GetData.match_candidates_for_job_score c4job c4cand = 120 ∧
    ¬(GetData.match_candidates_for_job_score c4job c4cand ≤ 100) := by
  decide

/-- **C10**: whenever either location field is absent or empty (falsy), the
location component of `calculate_match_score` is 0 — the `+10`
willing-to-relocate half credit is inside the same truthiness guard. -/
theorem c10_absent_location_scores_zero (c : Candidate) (j : Job)
    (h : truthy c.location = false ∨ truthy j.location = false) :
    (JobMatcher.calculate_match_score c j).locationDetail = 0 := by
  rcases h with h | h <;>
    simp [JobMatcher.calculate_match_score, JobMatcher.locationScore, h]

/-- Concrete input for the C10 witness: no location, affirmative
willing-to-relocate. -/
def c10cand : Candidate :=
  { location := none, willingToRelocate := some (("Yes" : String)) }

/-- Concrete job for the C10 witness. -/
def c10job : Job := { location := some (("Berlin" : String)) }

/-- Witness for C10: with the candidate's location absent and its
willing-to-relocate affirmative, the location component is still 0. -/
theorem c10_absent_location_scores_zero_witness :
    truthy c10cand.willingToRelocate = true ∧
    (JobMatcher.calculate_match_score c10cand c10job).locationDetail = 0 :=
  ⟨by decide, c10_absent_location_scores_zero c10cand c10job (Or.inl (by decide))⟩

namespace JobMatcher

/-- One entry of a candidate's match list in `find_matches`. -/
structure JobMatch where
  job : Job
  match_score : ℕ
  match_details : MatchResult
deriving DecidableEq

/-- One entry of the `find_matches` result. -/
structure CandidateMatches where
  candidate : Candidate
  matchList : List JobMatch
deriving DecidableEq

/-- The comparator of `candidate_matches.sort(key=..., reverse=True)`:
a stable descending sort keeps `a` before `b` when `b`'s score is at most
`a`'s. -/
def matchLe (a b : JobMatch) : Bool := decide (b.match_score ≤ a.match_score)

/-- The matches a candidate accumulates in the inner loop of
`find_matches`: one entry per job, kept when the score reaches
`min_score`, in job order. -/
def candidateMatchList (c : Candidate) (jobs : List Job) (min_score : ℕ) :
    List JobMatch :=
  (jobs.map (fun j =>
    { job := j, match_score := (calculate_match_score c j).score,
      match_details := calculate_match_score c j })).filter
    (fun m => decide (min_score ≤ m.match_score))

/-- `max([m["match_score"] for m in x["matches"]])` (0 on an empty list,
which `find_matches` never sorts). -/
def bestScore (e : CandidateMatches) : ℕ :=
  (e.matchList.map (fun m => m.match_score)).foldl max 0

/-- The comparator of the outer `matches.sort(key=max..., reverse=True)`. -/
def entryLe (a b : CandidateMatches) : Bool := decide (bestScore b ≤ bestScore a)

/-- The entry list built by the main loop of `find_matches` (per-candidate
matches already sorted, empty entries dropped), before the final sort. -/
def preMatches (cands : List Candidate) (jobs : List Job) (min_score : ℕ) :
    List CandidateMatches :=
  (cands.map (fun c =>
    { candidate := c,
      matchList := (candidateMatchList c jobs min_score).mergeSort matchLe })).filter
    (fun e => !e.matchList.isEmpty)

/-- `find_matches` from `job_matcher.py`. -/
def find_matches (cands : List Candidate) (jobs : List Job) (min_score : ℕ) :
    List CandidateMatches :=
  (preMatches cands jobs min_score).mergeSort entryLe

end JobMatcher

open JobMatcher in
/-- **C2**: every returned match scores at least `min_score`; within each
candidate's entry the scores are non-increasing; the entries are ordered by
best match score, descending; and ties are left in input (pre-sort) order —
any two entries with equal best scores that are adjacent-in-order in the
unsorted entry list stay in that order in the result. -/
theorem c2_find_matches_spec (cands : List Candidate) (jobs : List Job)
    (min_score : ℕ) :
    (∀ e ∈ find_matches cands jobs min_score,
      ∀ m ∈ e.matchList, min_score ≤ m.match_score) ∧
    (∀ e ∈ find_matches cands jobs min_score,
      e.matchList.Pairwise (fun a b => b.match_score ≤ a.match_score)) ∧
    (find_matches cands jobs min_score).Pairwise
      (fun a b => bestScore b ≤ bestScore a) ∧
    (∀ a b : CandidateMatches, bestScore a = bestScore b →
      List.Sublist [a, b] (preMatches cands jobs min_score) →
      List.Sublist [a, b] (find_matches cands jobs min_score)) := by
  have mtrans : ∀ a b c : JobMatch, matchLe a b → matchLe b c → matchLe a c := by
    intro a b c hab hbc
    simp only [matchLe, decide_eq_true_eq] at *
    omega
  have mtotal : ∀ a b : JobMatch, matchLe a b || matchLe b a := by
    intro a b
    simp only [matchLe, Bool.or_eq_true, decide_eq_true_eq]
    omega
  have etrans : ∀ a b c : CandidateMatches, entryLe a b → entryLe b c → entryLe a c := by
    intro a b c hab hbc
    simp only [entryLe, decide_eq_true_eq] at *
    omega
  have etotal : ∀ a b : CandidateMatches, entryLe a b || entryLe b a := by
    intro a b
    simp only [entryLe, Bool.or_eq_true, decide_eq_true_eq]
    omega
  refine ⟨?_, ?_, ?_, ?_⟩
  · intro e he m hm
    rw [find_matches, List.mem_mergeSort] at he
    rcases (List.mem_filter.mp he).1 |> List.mem_map.mp with ⟨c, _, rfl⟩
    simp only [List.mem_mergeSort] at hm
    have := (List.mem_filter.mp hm).2
    simpa using this
  · intro e he
    rw [find_matches, List.mem_mergeSort] at he
    rcases (List.mem_filter.mp he).1 |> List.mem_map.mp with ⟨c, _, rfl⟩
    exact (List.sorted_mergeSort mtrans mtotal _).imp (fun h => by
      simpa [matchLe] using h)
  · exact (List.sorted_mergeSort etrans etotal _).imp (fun h => by
      simpa [entryLe] using h)
  · intro a b hab hsub
    refine List.sublist_mergeSort etrans etotal ?_ hsub
    exact List.pairwise_pair.mpr (by simp [entryLe, hab])

/-- The job-match entry produced for the spec's example pair. -/
def c2match : JobMatcher.JobMatch :=
  { job := exJob,
    match_score := (JobMatcher.calculate_match_score exCand exJob).score,
    match_details := JobMatcher.calculate_match_score exCand exJob }

/-- The `find_matches` entry produced for the spec's example candidate. -/
def c2entry : JobMatcher.CandidateMatches :=
  { candidate := exCand, matchList := [c2match] }

/-- Witness for C2 at a concrete input: applying the theorem to the
example candidate/job at `min_score = 50` bounds the returned match. -/
theorem c2_find_matches_spec_witness : 50 ≤ c2match.match_score := by
  have h1 : JobMatcher.candidateMatchList exCand [exJob] 50 = [c2match] := by
    decide
  have hpre : JobMatcher.preMatches [exCand] [exJob] 50 = [c2entry] := by
    simp [JobMatcher.preMatches, h1, c2entry]
  have he : c2entry ∈ JobMatcher.find_matches [exCand] [exJob] 50 := by
    rw [JobMatcher.find_matches, List.mem_mergeSort, hpre]
    exact List.mem_singleton.mpr rfl
  exact (c2_find_matches_spec [exCand] [exJob] 50).1 c2entry he c2match
    (by simp [c2entry])

namespace JobMatcher

/-- Replace every literal `<p>` by a newline (`re.sub(r'<p>', '\n', ...)`,
case-sensitive, left to right). -/
def pSub : List Char → List Char
  | '<' :: 'p' :: '>' :: rest => '\n' :: pSub rest
  | c :: cs => c :: pSub cs
  | [] => []

/-- Match one `<br\s*/?>` occurrence at the head, returning the rest. -/
def brAt : List Char → Option (List Char)
  | '<' :: 'b' :: 'r' :: rest =>
    match rest.dropWhile pyIsSpace with
    | '/' :: '>' :: t => some t
    | '>' :: t => some t
    | _ => none
  | _ => none

/-- `re.sub(r'<br\s*/?>', '\n', ...)`.  The fuel argument makes the
recursion structural; `l.length` fuel always suffices since every
replacement consumes at least four characters. -/
def brSubGo : ℕ → List Char → List Char
  | 0, l => l
  | _ + 1, [] => []
  | fuel + 1, c :: cs =>
    match brAt (c :: cs) with
    | some t => '\n' :: brSubGo fuel t
    | none => c :: brSubGo fuel cs

/-- `re.sub(r'<br\s*/?>', '\n', ...)`. -/
def brSub (l : List Char) : List Char := brSubGo l.length l

/-- Characters that can begin a markup construct after `<`: ASCII letters
(start tags), `/` (end tags), `!` and `?` (declarations, comments,
processing instructions).  html.parser treats a `<` not followed by one of
these as plain text. -/
def isTagStartChar (c : Char) : Bool :=
  (65 ≤ c.toNat && c.toNat ≤ 90) || (97 ≤ c.toNat && c.toNat ≤ 122) ||
  c = '/' || c = '!' || c = '?'

/-- Models the external `BeautifulSoup(..., 'html.parser').get_text()` call
of `clean_html` (validated against CPython's html.parser): markup segments —
a `<` followed by a tag-start character, through the closing `>` — are
dropped; every other character, including a stray `<`, is retained as text.
The `Bool` state is "currently inside markup". -/
def stripTagsGo : Bool → List Char → List Char
  | true, [] => []
  | true, c :: cs => if c = '>' then stripTagsGo false cs else stripTagsGo true cs
  | false, [] => []
  | false, c :: cs =>
    if c = '<' then
      match cs with
      | d :: _ =>
        if isTagStartChar d then stripTagsGo true cs else c :: stripTagsGo false cs
      | [] => [c]
    else c :: stripTagsGo false cs

/-- The tag-stripping step of `clean_html`. -/
def stripTags (l : List Char) : List Char := stripTagsGo false l

/-- `re.sub(r'\n{3,}', '\n\n', ...)`: every maximal newline run is capped
at two.  The counter is the pending newline-run length. -/
def collapseNlGo : ℕ → List Char → List Char
  | p, [] => List.replicate (min p 2) '\n'
  | p, c :: cs =>
    if c = '\n' then collapseNlGo (p + 1) cs
    else List.replicate (min p 2) '\n' ++ c :: collapseNlGo 0 cs

/-- The newline-collapsing step of `clean_html`. -/
def collapseNl (l : List Char) : List Char := collapseNlGo 0 l

/-- `re.sub(r' {2,}', ' ', ...)`: every maximal space run collapses to a
single space. -/
def collapseSpGo : ℕ → List Char → List Char
  | p, [] => List.replicate (min p 1) ' '
  | p, c :: cs =>
    if c = ' ' then collapseSpGo (p + 1) cs
    else List.replicate (min p 1) ' ' ++ c :: collapseSpGo 0 cs

/-- The space-collapsing step of `clean_html`. -/
def collapseSp (l : List Char) : List Char := collapseSpGo 0 l

/-- `clean_html` from `job_matcher.py`: rewrite `<p>` and `<br/>` breaks to
newlines, strip the remaining markup, collapse newline and space runs, and
strip the ends.  Total: every input yields a (possibly empty) string. -/
def clean_html (s : String) : List Char :=
  pyStrip (collapseSp (collapseNl (stripTags (brSub (pSub s.data)))))

end JobMatcher

/-- Whether three consecutive newline characters occur somewhere. -/
def hasTriple : List Char → Bool
  | a :: b :: c :: t => (a = '\n' && b = '\n' && c = '\n') || hasTriple (b :: c :: t)
  | _ => false

/-- Whether a tag-shaped opener occurs: a `<` immediately followed by a
tag-start character. -/
def hasTagStart : List Char → Bool
  | a :: b :: t => (a = '<' && JobMatcher.isTagStartChar b) || hasTagStart (b :: t)
  | _ => false

/-- Whether the first two characters are both newlines. -/
def firstTwoNl : List Char → Bool
  | b :: c :: _ => b = '\n' && c = '\n'
  | _ => false

theorem hasTriple_cons_iff (a : Char) (l : List Char) :
    hasTriple (a :: l) = ((decide (a = '\n') && firstTwoNl l) || hasTriple l) := by
  cases l with
  | nil => simp [hasTriple, firstTwoNl]
  | cons b t =>
    cases t with
    | nil => simp [hasTriple, firstTwoNl]
    | cons c r => simp [hasTriple, firstTwoNl, Bool.and_assoc]

theorem hasTriple_cons (a : Char) (l : List Char) (h : hasTriple l = true) :
    hasTriple (a :: l) = true := by
  rw [hasTriple_cons_iff, h, Bool.or_true]

theorem firstTwoNl_append (s t : List Char) (h : firstTwoNl s = true) :
    firstTwoNl (s ++ t) = true := by
  match s with
  | [] => simp [firstTwoNl] at h
  | [b] => simp [firstTwoNl] at h
  | b :: c :: r => simpa [firstTwoNl] using h

theorem hasTriple_append_right (s t : List Char) (h : hasTriple t = true) :
    hasTriple (s ++ t) = true := by
  induction s with
  | nil => simpa using h
  | cons a s ih => exact hasTriple_cons a _ ih

theorem hasTriple_append_left (s t : List Char) (h : hasTriple s = true) :
    hasTriple (s ++ t) = true := by
  induction s with
  | nil => simp [hasTriple] at h
  | cons a s ih =>
    rw [hasTriple_cons_iff] at h
    rw [List.cons_append, hasTriple_cons_iff]
    rcases Bool.or_eq_true_iff.mp h with h1 | h1
    · rw [Bool.and_eq_true] at h1
      rw [h1.1, firstTwoNl_append s t h1.2]
      simp
    · rw [ih h1, Bool.or_true]

theorem hasTriple_replicate_nl (n : ℕ) (h : n ≤ 2) :
    hasTriple (List.replicate n '\n') = false := by
  interval_cases n <;> decide

theorem firstTwoNl_cons_false (c : Char) (l : List Char) (hc : ¬c = '\n') :
    firstTwoNl (c :: l) = false := by
  cases l <;> simp [firstTwoNl, hc]

theorem hasTriple_emit (n : ℕ) (c : Char) (l : List Char) (hn : n ≤ 2)
    (hc : ¬c = '\n') (hl : hasTriple l = false) :
    hasTriple (List.replicate n '\n' ++ c :: l) = false := by
  interval_cases n
  · simp [hasTriple_cons_iff, hl, hc]
  · simp only [List.replicate, List.cons_append, List.nil_append]
    rw [hasTriple_cons_iff, hasTriple_cons_iff]
    simp [hl, firstTwoNl_cons_false c l hc,
      firstTwoNl_cons_false c (List.nil) hc, hc]
  · simp only [List.replicate, List.cons_append, List.nil_append]
    rw [hasTriple_cons_iff, hasTriple_cons_iff, hasTriple_cons_iff]
    have h2 : firstTwoNl (c :: l) = false := firstTwoNl_cons_false c l hc
    have h3 : firstTwoNl ('\n' :: c :: l) = false := by
      simp [firstTwoNl, hc]
    simp [hl, h2, h3, hc]

theorem hasTriple_collapseNlGo (l : List Char) : ∀ p : ℕ,
    hasTriple (JobMatcher.collapseNlGo p l) = false := by
  induction l with
  | nil =>
    intro p
    simp only [JobMatcher.collapseNlGo]
    exact hasTriple_replicate_nl _ (Nat.min_le_right p 2)
  | cons c cs ih =>
    intro p
    by_cases hc : c = '\n'
    · simp only [JobMatcher.collapseNlGo, if_pos hc]
      exact ih (p + 1)
    · simp only [JobMatcher.collapseNlGo, if_neg hc]
      exact hasTriple_emit _ c _ (Nat.min_le_right p 2) hc (ih 0)

theorem collapseSpGo_head_pos (l : List Char) : ∀ p : ℕ, 1 ≤ p →
    (JobMatcher.collapseSpGo p l).head? = some ' ' := by
  induction l with
  | nil =>
    intro p hp
    have hm : min p 1 = 1 := by omega
    simp [JobMatcher.collapseSpGo, hm]
  | cons c cs ih =>
    intro p hp
    by_cases hc : c = ' '
    · simp only [JobMatcher.collapseSpGo, if_pos hc]
      exact ih (p + 1) (by omega)
    · have hm : min p 1 = 1 := by omega
      simp [JobMatcher.collapseSpGo, if_neg hc, hm]

theorem collapseSpGo_zero_head (l : List Char) (x : Char)
    (h : (JobMatcher.collapseSpGo 0 l).head? = some x) (hx : ¬x = ' ') :
    l.head? = some x := by
  cases l with
  | nil => simp [JobMatcher.collapseSpGo] at h
  | cons c cs =>
    by_cases hc : c = ' '
    · rw [show JobMatcher.collapseSpGo 0 (c :: cs) = JobMatcher.collapseSpGo 1 cs by
        simp [JobMatcher.collapseSpGo, hc]] at h
      rw [collapseSpGo_head_pos cs 1 (by omega)] at h
      exact absurd (Option.some_injective _ h).symm hx
    · rw [show JobMatcher.collapseSpGo 0 (c :: cs)
          = c :: JobMatcher.collapseSpGo 0 cs by
        simp [JobMatcher.collapseSpGo, hc]] at h
      simp only [List.head?_cons] at h
      simp [← Option.some_injective _ h]

theorem firstTwoNl_cons_elim (c : Char) (l : List Char)
    (h : firstTwoNl (c :: l) = true) : c = '\n' ∧ l.head? = some '\n' := by
  cases l with
  | nil => simp [firstTwoNl] at h
  | cons d t =>
    simp only [firstTwoNl, Bool.and_eq_true, decide_eq_true_eq] at h
    exact ⟨h.1, by simp [h.2]⟩

theorem firstTwoNl_head (l : List Char) (h : firstTwoNl l = true) :
    l.head? = some '\n' := by
  cases l with
  | nil => simp [firstTwoNl] at h
  | cons c cs => simp [(firstTwoNl_cons_elim c cs h).1]

theorem firstTwoNl_collapseSpGo (l : List Char) : ∀ p : ℕ,
    firstTwoNl (JobMatcher.collapseSpGo p l) = true → firstTwoNl l = true := by
  intro p h
  rcases Nat.eq_zero_or_pos p with hp | hp
  · subst hp
    cases l with
    | nil => simpa [JobMatcher.collapseSpGo] using h
    | cons c cs =>
      by_cases hc : c = ' '
      · rw [show JobMatcher.collapseSpGo 0 (c :: cs) = JobMatcher.collapseSpGo 1 cs by
          simp [JobMatcher.collapseSpGo, hc]] at h
        have := firstTwoNl_head _ h
        rw [collapseSpGo_head_pos cs 1 (by omega)] at this
        exact absurd (Option.some_injective _ this) (by decide)
      · rw [show JobMatcher.collapseSpGo 0 (c :: cs)
            = c :: JobMatcher.collapseSpGo 0 cs by
          simp [JobMatcher.collapseSpGo, hc]] at h
        obtain ⟨hcn, hrest⟩ := firstTwoNl_cons_elim _ _ h
        have := collapseSpGo_zero_head cs _ hrest (by decide)
        cases cs with
        | nil => simp at this
        | cons d t =>
          simp only [List.head?_cons] at this
          have hd := Option.some_injective _ this
          simp [firstTwoNl, hcn, hd]
  · have := firstTwoNl_head _ h
    rw [collapseSpGo_head_pos l p hp] at this
    exact absurd (Option.some_injective _ this) (by decide)

theorem hasTriple_collapseSpGo (l : List Char) : ∀ p : ℕ,
    hasTriple (JobMatcher.collapseSpGo p l) = true → hasTriple l = true := by
  induction l with
  | nil =>
    intro p h
    exfalso
    have hm : min p 1 = 0 ∨ min p 1 = 1 := by omega
    rcases hm with hm | hm <;>
      simp [JobMatcher.collapseSpGo, hm, hasTriple] at h
  | cons c cs ih =>
    intro p h
    by_cases hc : c = ' '
    · rw [show JobMatcher.collapseSpGo p (c :: cs)
          = JobMatcher.collapseSpGo (p + 1) cs by
        simp [JobMatcher.collapseSpGo, hc]] at h
      exact hasTriple_cons c cs (ih (p + 1) h)
    · rw [show JobMatcher.collapseSpGo p (c :: cs)
          = List.replicate (min p 1) ' ' ++ c :: JobMatcher.collapseSpGo 0 cs by
        simp [JobMatcher.collapseSpGo, hc]] at h
      have core : hasTriple (c :: JobMatcher.collapseSpGo 0 cs) = true →
          hasTriple (c :: cs) = true := by
        intro hcore
        rw [hasTriple_cons_iff] at hcore
        rcases Bool.or_eq_true_iff.mp hcore with h1 | h1
        · rw [Bool.and_eq_true, decide_eq_true_eq] at h1
          rw [hasTriple_cons_iff]
          simp [h1.1, firstTwoNl_collapseSpGo cs 0 h1.2]
        · exact hasTriple_cons c cs (ih 0 h1)
      have hm : min p 1 = 0 ∨ min p 1 = 1 := by omega
      rcases hm with hm | hm
      · rw [hm] at h
        simp only [List.replicate, List.nil_append] at h
        exact core h
      · rw [hm] at h
        simp only [List.replicate, List.cons_append, List.nil_append] at h
        rw [hasTriple_cons_iff] at h
        rcases Bool.or_eq_true_iff.mp h with h1 | h1
        · rw [Bool.and_eq_true, decide_eq_true_eq] at h1
          exact absurd h1.1 (by decide)
        · exact core h1

theorem dropTrailingWs_decomp (l : List Char) :
    ∃ r, l = dropTrailingWs l ++ r := by
  induction l with
  | nil => exact ⟨[], rfl⟩
  | cons c cs ih =>
    obtain ⟨r, hr⟩ := ih
    simp only [dropTrailingWs]
    by_cases hb : ((dropTrailingWs cs).isEmpty && pyIsSpace c) = true
    · rw [if_pos hb]
      exact ⟨c :: cs, rfl⟩
    · rw [if_neg hb]
      exact ⟨r, by rw [List.cons_append, ← hr]⟩

theorem hasTriple_pyStrip (l : List Char) (h : hasTriple (pyStrip l) = true) :
    hasTriple l = true := by
  rw [pyStrip] at h
  obtain ⟨r, hr⟩ := dropTrailingWs_decomp (l.dropWhile pyIsSpace)
  have h2 : hasTriple (l.dropWhile pyIsSpace) = true := by
    rw [hr]
    exact hasTriple_append_left _ _ h
  have h3 := hasTriple_append_right (l.takeWhile pyIsSpace) _ h2
  rwa [List.takeWhile_append_dropWhile] at h3

/-- **C7** (amended): `clean_html` is a total function — every raw input
yields a (possibly empty) string — and its output never contains a run of
three or more consecutive newline characters.  The tag-free half of the
original claim fails on adversarial input; see the counterexample. -/
theorem c7_clean_html_no_triple_newline (s : String) :
    hasTriple (JobMatcher.clean_html s) = false := by
  cases hEq : hasTriple (JobMatcher.clean_html s)
  · rfl
  · exfalso
    rw [JobMatcher.clean_html] at hEq
    have h1 := hasTriple_pyStrip _ hEq
    rw [JobMatcher.collapseSp] at h1
    have h2 := hasTriple_collapseSpGo _ 0 h1
    rw [JobMatcher.collapseNl] at h2
    exact absurd h2 (by simp [hasTriple_collapseNlGo])

/-- The C7 counterexample input: a stray `<` followed by a real tag. -/
def c7input : String := "<<a>x>"

/-- **C7** counterexample: `clean_html "<<a>x>"` evaluates to `"<x>"` —
the stray `<` is retained as text (html.parser behaviour) and recombines
with the text after the stripped `<a>` tag into a markup-tag-shaped
substring, so the output is not tag-free. -/
theorem c7_counterexample :
    JobMatcher.clean_html c7input = ("<x>" : String).data ∧
    hasTagStart (JobMatcher.clean_html c7input) = true := by
  decide

/-! ### The summary generators -/

/-- `str.join`: concatenate with a separator between consecutive items. -/
def pyJoin (sep : String) : List String → String
  | [] => ("" : String)
  | [a] => a
  | a :: b :: t => a ++ sep ++ pyJoin sep (b :: t)

/-- Python `str.capitalize`: first character uppercased, the rest
lowercased. -/
def pyCapitalize (s : String) : String :=
  match s.data with
  | [] => ("" : String)
  | c :: t => ⟨pyUpperChar c :: pyLower t⟩

/-- Whether a string begins with a lowercase ASCII letter. -/
def isLowerCh (c : Char) : Bool := 97 ≤ c.toNat && c.toNat ≤ 122

/-- Whether the first character of a string is a lowercase ASCII letter. -/
def hasLowerHead (s : String) : Bool :=
  match s.data with
  | c :: _ => isLowerCh c
  | [] => false

/-- `re.split(r'[,;/]', s)`: split on commas, semicolons and slashes,
keeping empty pieces. -/
def splitClassGo (cur : List Char) : List Char → List (List Char)
  | [] => [cur.reverse]
  | c :: cs =>
    if c = ',' || c = ';' || c = '/' then cur.reverse :: splitClassGo [] cs
    else splitClassGo (c :: cur) cs

/-- `re.split(r'[,;/]', s)` on strings. -/
def splitClass (s : String) : List String :=
  (splitClassGo [] s.data).map (fun l => ⟨l⟩)

namespace JobMatcher

/-- `generate_candidate_summary` from `job_matcher.py`: location clause,
technology clause (or the bare word developer), optional preference clause,
joined by spaces and passed through `str.capitalize`.  Total: every missing
field is skipped. -/
def generate_candidate_summary (f : Candidate) : String :=
  let locParts : List String :=
    if truthy f.location
    then [(f.location.getD (("" : String))) ++ ("-based" : String)] else []
  let techPart : String :=
    if truthy f.technologies then
      let techList := (f.technologies.getD (("" : String))).splitOn (("," : String))
      if 3 < techList.length then
        ("developer with skills in " : String)
          ++ pyJoin ((", " : String)) (techList.take 3) ++ ((", and more" : String))
      else ("developer with skills in " : String) ++ f.technologies.getD (("" : String))
    else ("developer" : String)
  let prefs : List String :=
    (if truthy f.remote
        && subIn yesL (pyLower (f.remote.getD (("" : String))).data)
     then [("available for remote work" : String)] else []) ++
    (if truthy f.willingToRelocate
        && subIn yesL (pyLower (f.willingToRelocate.getD (("" : String))).data)
     then [("willing to relocate" : String)] else [])
  let parts := locParts ++ [techPart] ++
    (if prefs.isEmpty then []
     else [("who is " : String) ++ pyJoin ((" and " : String)) prefs])
  pyCapitalize (pyJoin ((" " : String)) parts)

/-- Characters of the literal `"no"`. -/
def noL : List Char := ("no" : String).data

/-- The summary parts following the company clause in
`generate_job_summary`: position, location/remote clause, technology
clause, compensation clause, in source order. -/
def jobSummaryTail (f : Job) : List String :=
  let positionPart : List String :=
    if truthy f.position
    then [("for " : String) ++ f.position.getD (("" : String))] else []
  let locParts : List String :=
    (if truthy f.location
     then [("in " : String) ++ f.location.getD (("" : String))] else []) ++
    (if truthy f.remote
        && !(subIn noL (pyLower (f.remote.getD (("" : String))).data))
     then [("with remote options" : String)] else [])
  let locPart : List String :=
    if locParts.isEmpty then [] else [pyJoin ((" " : String)) locParts]
  let techPart : List String :=
    if truthy f.technologies then
      let items := splitClass (f.technologies.getD (("" : String)))
      if 3 < items.length then
        [("using " : String) ++ pyJoin ((", " : String)) (items.take 3)
          ++ ((", and more" : String))]
      else [("using " : String) ++ f.technologies.getD (("" : String))]
    else []
  let salaryPart : List String :=
    if truthy f.salary
    then [("with compensation " : String) ++ f.salary.getD (("" : String))] else []
  positionPart ++ locPart ++ techPart ++ salaryPart

/-- `generate_job_summary` from `job_matcher.py`: company clause (with the
fallback word Company) followed by the remaining clauses, joined by
spaces.  Note: the source returns the joined string without applying
`str.capitalize`. -/
def generate_job_summary (f : Job) : String :=
  let companyPart : String :=
    if truthy f.company
    then (f.company.getD (("" : String))) ++ (" is hiring" : String)
    else ("Company is hiring" : String)
  pyJoin ((" " : String)) (companyPart :: jobSummaryTail f)

end JobMatcher

theorem toNat_ofNatAux (n : ℕ) (h : n.isValidChar) :
    (Char.ofNatAux n h).toNat = n := rfl

theorem isLowerCh_pyUpperChar (c : Char) : isLowerCh (pyUpperChar c) = false := by
  unfold pyUpperChar
  by_cases h : 97 ≤ c.toNat ∧ c.toNat ≤ 122
  · rw [dif_pos h]
    simp only [isLowerCh, toNat_ofNatAux]
    simp only [Bool.and_eq_false_iff, decide_eq_false_iff_not]
    omega
  · rw [dif_neg h]
    simp only [isLowerCh, Bool.and_eq_false_iff, decide_eq_false_iff_not]
    omega

theorem hasLowerHead_pyCapitalize (s : String) :
    hasLowerHead (pyCapitalize s) = false := by
  rcases hs : s.data with _ | ⟨c, t⟩ <;>
    simp [pyCapitalize, hs, hasLowerHead, isLowerCh_pyUpperChar]

theorem hasLowerHead_pyJoin_cons (sep : String) (a : String) (l : List String)
    (c : Char) (t : List Char) (ha : a.data = c :: t) :
    hasLowerHead (pyJoin sep (a :: l)) = isLowerCh c := by
  cases l with
  | nil => simp [pyJoin, hasLowerHead, ha]
  | cons b r =>
    show hasLowerHead (a ++ sep ++ pyJoin sep (b :: r)) = isLowerCh c
    simp [hasLowerHead, ha]

/-- **C5** (amended): the candidate summary is passed through Python's
`str.capitalize`, so its first character is never a lowercase letter, and
both generators are total (every missing optional field is skipped); but
the job summary is returned without capitalization — it begins with an
uppercase C only via the fallback clause when the Company field is absent
or empty. -/
theorem c5_summary_capitalization :
    (∀ f : Candidate, hasLowerHead (JobMatcher.generate_candidate_summary f) = false) ∧
    (∀ f : Job,
      hasLowerHead (JobMatcher.generate_job_summary { f with company := none }) = false) := by
  constructor
  · intro f
    exact hasLowerHead_pyCapitalize _
  · intro f
    simp only [JobMatcher.generate_job_summary]
    rw [hasLowerHead_pyJoin_cons _ _ (JobMatcher.jobSummaryTail _) ('C')
      (("ompany is hiring" : String).data) (by decide)]
    decide

/-- Concrete C5 counterexample record: a company whose name begins in
lowercase. -/
def c5job : Job := { company := some (("acme corp" : String)) }

/-- **C5** counterexample: the job summary is not capitalized on output —
with Company "acme corp" the generated summary begins with a lowercase
letter. -/
theorem c5_counterexample :
    JobMatcher.generate_job_summary c5job = ("acme corp is hiring" : String) ∧
    hasLowerHead (JobMatcher.generate_job_summary c5job) = true := by
  decide

/-! ### `get_data.extract_years_of_experience` -/

namespace GetData

/-- The result of `extract_years_of_experience`: Python returns `None`
(empty input), an `int`, or a string label. -/
inductive Experience where
  | null
  | years (n : ℕ)
  | band (s : String)
deriving DecidableEq

/-- The numeric value of a digit run (`int(match.group(1))`). -/
def natOfDigits (l : List Char) : ℕ :=
  l.foldl (fun a c => 10 * a + (c.toNat - 48)) 0

/-- Match the core `(\d+)\+?\s*(?:years|yrs)` at the head of `l`; returns
the captured number and the remainder after the literal.  Backtracking
into the digit run or the whitespace never yields a match the greedy parse
misses (a shorter digit run leaves a digit where `years`/`yrs` must start,
and those literals begin with a non-whitespace character), so the maximal
runs are taken. -/
def coreYearsMatch (l : List Char) : Option (ℕ × List Char) :=
  let ds := l.takeWhile Char.isDigit
  if ds.isEmpty then none
  else
    let r1 := l.drop ds.length
    let r2 := match r1 with
      | '+' :: t => t
      | _ => r1
    let r3 := r2.dropWhile pyIsSpace
    if isPrefOf (("years" : String).data) (pyLower r3) then
      some (natOfDigits ds, r3.drop 5)
    else if isPrefOf (("yrs" : String).data) (pyLower r3) then
      some (natOfDigits ds, r3.drop 3)
    else none

/-- The captured number of the core pattern at the head of `l`. -/
def coreYearsAt (l : List Char) : Option ℕ := (coreYearsMatch l).map Prod.fst

/-- `re.search`: try a head-anchored test at every position, left to
right. -/
def searchOptNat (test : List Char → Option ℕ) : List Char → Option ℕ
  | [] => test []
  | c :: cs =>
    match test (c :: cs) with
    | some n => some n
    | none => searchOptNat test cs

/-- Pattern 1, `(\d+)\+?\s*(?:years|yrs)(?:\s*of)?(?:\s*experience)?`: the
two trailing optional groups never affect success or the capture. -/
def pat1 (l : List Char) : Option ℕ := searchOptNat coreYearsAt l

/-- The continuation `\s*(\d+)\+?\s*(?:years|yrs)` of patterns 2 and 3. -/
def wsDigitsYears (l : List Char) : Option ℕ :=
  coreYearsAt (l.dropWhile pyIsSpace)

/-- The continuation `(?:\s*of)?\s*(\d+)\+?\s*(?:years|yrs)` of pattern 2:
the greedy optional `of` group is preferred and abandoned on failure. -/
def pat2Cont (l : List Char) : Option ℕ :=
  let withOf : Option ℕ :=
    let r := l.dropWhile pyIsSpace
    if isPrefOf (("of" : String).data) (pyLower r) then wsDigitsYears (r.drop 2)
    else none
  match withOf with
  | some n => some n
  | none => wsDigitsYears l

/-- Pattern 2 at a position: `(?:experience|exp)(?:\s*of)?\s*(\d+)\+?\s*
(?:years|yrs)`, trying the `experience` alternative before `exp`. -/
def pat2At (l : List Char) : Option ℕ :=
  match (if isPrefOf (("experience" : String).data) (pyLower l)
         then pat2Cont (l.drop 10) else none) with
  | some n => some n
  | none =>
    if isPrefOf (("exp" : String).data) (pyLower l) then pat2Cont (l.drop 3)
    else none

/-- Pattern 2 searched over the text. -/
def pat2 (l : List Char) : Option ℕ := searchOptNat pat2At l

/-- Pattern 3 at a position: `(?:with)?\s*(\d+)\+?\s*(?:years|yrs)...`
(trailing optional groups again irrelevant). -/
def pat3At (l : List Char) : Option ℕ :=
  match (if isPrefOf (("with" : String).data) (pyLower l)
         then wsDigitsYears (l.drop 4) else none) with
  | some n => some n
  | none => wsDigitsYears l

/-- Pattern 3 searched over the text. -/
def pat3 (l : List Char) : Option ℕ := searchOptNat pat3At l

/-- The lazy `.*?` before the core of pattern 4: extend one non-newline
character at a time, trying the core first at each stop. -/
def lazyScanCore : List Char → Option ℕ
  | [] => none
  | c :: cs =>
    match coreYearsAt (c :: cs) with
    | some n => some n
    | none => if c = '\n' then none else lazyScanCore cs

/-- Pattern 4 at a position: `senior.*?(\d+)\+?\s*(?:years|yrs)`. -/
def pat4At (l : List Char) : Option ℕ :=
  if isPrefOf (("senior" : String).data) (pyLower l) then lazyScanCore (l.drop 6)
  else none

/-- Pattern 4 searched over the text. -/
def pat4 (l : List Char) : Option ℕ := searchOptNat pat4At l

/-- The lazy `.*?senior` tail of pattern 5. -/
def lazyScanSenior : List Char → Bool
  | [] => false
  | c :: cs =>
    if isPrefOf (("senior" : String).data) (pyLower (c :: cs)) then true
    else if c = '\n' then false else lazyScanSenior cs

/-- Pattern 5 at a position: `(\d+)\+?\s*(?:years|yrs).*?senior`.  The
`years`/`yrs` alternatives are mutually exclusive, so no backtracking
across the core is possible once it matches. -/
def pat5At (l : List Char) : Option ℕ :=
  match coreYearsMatch l with
  | some p => if lazyScanSenior p.2 then some p.1 else none
  | none => none

/-- Pattern 5 searched over the text. -/
def pat5 (l : List Char) : Option ℕ := searchOptNat pat5At l

end GetData

/-- Whether an optional previous character is a word character (`\b`
semantics treat the text boundary as a non-word position). -/
def isWordOpt : Option Char → Bool
  | some c => isWordChar c
  | none => false

/-- A generic searched Boolean matcher carrying the previous character
(for word boundaries). -/
def searchBool (test : Option Char → List Char → Bool) :
    Option Char → List Char → Bool
  | prev, [] => test prev []
  | prev, c :: cs => test prev (c :: cs) || searchBool test (some c) cs

namespace GetData

/-- `\bw\b` at a position, for a keyword consisting of word characters:
the previous character must be absent or non-word, and the following
character absent or non-word. -/
def wordHitAt (w : List Char) (prev : Option Char) (l : List Char) : Bool :=
  !isWordOpt prev && isPrefOf w (pyLower l) &&
  (match l.drop w.length with
   | [] => true
   | d :: _ => !isWordChar d)

/-- `\bw\b` searched over the text. -/
def wordHit (w : List Char) (l : List Char) : Bool :=
  searchBool (wordHitAt w) none l

/-- `\b(base)\.?\b` at a position (the `sr\.?`/`jr\.?` alternatives).
When the base is followed by a dot, either the dotted parse has a word
character after the dot (a boundary), or the engine backtracks to the
dotless parse, whose trailing boundary sits between the base's last word
character and the dot — so a following dot always yields a match. -/
def dotWordHitAt (base : List Char) (prev : Option Char) (l : List Char) : Bool :=
  !isWordOpt prev && isPrefOf base (pyLower l) &&
  (match l.drop base.length with
   | [] => true
   | '.' :: _ => true
   | d :: _ => !isWordChar d)

/-- `\b(base)\.?\b` searched over the text. -/
def dotWordHit (base : List Char) (l : List Char) : Bool :=
  searchBool (dotWordHitAt base) none l

/-- `\b(w1)[\-\s](w2)\b` at a position (`mid-level`, `entry level`, ...). -/
def sepWordHitAt (w1 w2 : List Char) (prev : Option Char) (l : List Char) :
    Bool :=
  !isWordOpt prev && isPrefOf w1 (pyLower l) &&
  (match l.drop w1.length with
   | c :: rest =>
     (c = '-' || pyIsSpace c) && isPrefOf w2 (pyLower rest) &&
     (match rest.drop w2.length with
      | [] => true
      | d :: _ => !isWordChar d)
   | [] => false)

/-- `\b(w1)[\-\s](w2)\b` searched over the text. -/
def sepWordHit (w1 w2 : List Char) (l : List Char) : Bool :=
  searchBool (sepWordHitAt w1 w2) none l

/-- `re.search(r'\b(?:senior|sr\.?|lead|principal|staff)\b', ...)`. -/
def seniorHit (l : List Char) : Bool :=
  wordHit (("senior" : String).data) l || dotWordHit (("sr" : String).data) l ||
  wordHit (("lead" : String).data) l || wordHit (("principal" : String).data) l ||
  wordHit (("staff" : String).data) l

/-- `re.search(r'\b(?:mid[\-\s]level|intermediate|mid[\-\s]career)\b', ...)`. -/
def midHit (l : List Char) : Bool :=
  sepWordHit (("mid" : String).data) (("level" : String).data) l ||
  wordHit (("intermediate" : String).data) l ||
  sepWordHit (("mid" : String).data) (("career" : String).data) l

/-- `re.search(r'\b(?:junior|jr\.?|entry[\-\s]level|beginner|graduate|fresh)\b', ...)`. -/
def juniorHit (l : List Char) : Bool :=
  wordHit (("junior" : String).data) l || dotWordHit (("jr" : String).data) l ||
  sepWordHit (("entry" : String).data) (("level" : String).data) l ||
  wordHit (("beginner" : String).data) l ||
  wordHit (("graduate" : String).data) l ||
  wordHit (("fresh" : String).data) l

/-- `extract_years_of_experience` from `get_data.py`: `None` on falsy
input; else the first explicit numeric pattern, in order; else the
seniority bands; else the label Not specified. -/
def extract_years_of_experience (t : Option String) : Experience :=
  match t with
  | none => Experience.null
  | some s =>
    if s.isEmpty then Experience.null else
    let l := s.data
    match pat1 l with
    | some n => Experience.years n
    | none =>
    match pat2 l with
    | some n => Experience.years n
    | none =>
    match pat3 l with
    | some n => Experience.years n
    | none =>
    match pat4 l with
    | some n => Experience.years n
    | none =>
    match pat5 l with
    | some n => Experience.years n
    | none =>
      if seniorHit l then Experience.band (("Senior (5+ years)" : String))
      else if midHit l then Experience.band (("Mid-level (3-5 years)" : String))
      else if juniorHit l then Experience.band (("Junior (0-2 years)" : String))
      else Experience.band (("Not specified" : String))

end GetData

/-- **C8** counterexample: on the empty candidate text neither an explicit
pattern nor a seniority keyword matches, yet the function returns `None`
(the `if not text` guard), not the string Not specified. -/
theorem c8_counterexample :
    GetData.extract_years_of_experience (some (("" : String)))
      = GetData.Experience.null ∧
    GetData.Experience.null ≠ GetData.Experience.band (("Not specified" : String)) := by
  decide

/-- **C8** (amended): on every non-empty candidate text the explicit
numeric patterns are tried before seniority-keyword inference — whenever
the first explicit pattern matches with number `n`, the result is the
integer `n`, never an inferred band, in particular also when a seniority
keyword occurs — and when no explicit pattern and no seniority keyword
matches, the result is Not specified.  On empty (or missing) text the
function returns `None` instead. -/
theorem c8_explicit_number_precedes_inference (s : String)
    (h : s.isEmpty = false) :
    (∀ n : ℕ, GetData.pat1 s.data = some n →
      GetData.extract_years_of_experience (some s) = GetData.Experience.years n) ∧
    (GetData.pat1 s.data = none → GetData.pat2 s.data = none →
     GetData.pat3 s.data = none → GetData.pat4 s.data = none →
     GetData.pat5 s.data = none → GetData.seniorHit s.data = false →
     GetData.midHit s.data = false → GetData.juniorHit s.data = false →
     GetData.extract_years_of_experience (some s)
       = GetData.Experience.band (("Not specified" : String))) := by
  constructor
  · intro n hn
    simp [GetData.extract_years_of_experience, h, hn]
  · intro h1 h2 h3 h4 h5 h6 h7 h8
    simp [GetData.extract_years_of_experience, h, h1, h2, h3, h4, h5, h6, h7, h8]

/-- Witness for C8 at concrete inputs: a text with both a seniority
keyword and an explicit number yields the number; a text with neither
yields Not specified. -/
theorem c8_explicit_number_precedes_inference_witness :
    GetData.extract_years_of_experience
        (some (("senior dev with 7 years experience" : String)))
      = GetData.Experience.years 7 ∧
    GetData.extract_years_of_experience (some (("I like trains" : String)))
      = GetData.Experience.band (("Not specified" : String)) := by
  constructor
  · exact (c8_explicit_number_precedes_inference _ (by decide)).1 7 (by decide)
  · exact (c8_explicit_number_precedes_inference _ (by decide)).2 (by decide)
      (by decide) (by decide) (by decide) (by decide) (by decide) (by decide)
      (by decide)

/-! ### `get_data.extract_technologies` (the Technology Vocabulary Matcher) -/

namespace GetData

/-- One alternative of the technology regexes: a lower-cased literal and an
optional greedy tail (the trailing `s?` of `Node\.js?` and friends). -/
structure TechAlt where
  base : List Char
  opt : List Char

/-- A word boundary between the last matched character and the rest. -/
def boundaryAfter (lc : Char) (rest : List Char) : Bool :=
  match rest with
  | [] => isWordChar lc
  | d :: _ => isWordChar lc != isWordChar d

/-- Try one alternative (with its surrounding `\b`s) at a position,
returning the lower-cased matched text and the remaining input.  The
optional tail is greedy: the with-tail parse is preferred and abandoned
when its trailing boundary fails. -/
def tryAltAt (a : TechAlt) (prev : Option Char) (l : List Char) :
    Option (List Char × List Char) :=
  match a.base with
  | [] => none
  | b0 :: _ =>
    if isPrefOf a.base (pyLower l) && (isWordOpt prev != isWordChar b0) then
      let withTail : Option (List Char × List Char) :=
        if a.opt.isEmpty then none
        else if isPrefOf a.opt (pyLower (l.drop a.base.length)) then
          match (a.base ++ a.opt).getLast? with
          | some lc =>
            if boundaryAfter lc (l.drop (a.base.length + a.opt.length)) then
              some (a.base ++ a.opt, l.drop (a.base.length + a.opt.length))
            else none
          | none => none
        else none
      match withTail with
      | some r => some r
      | none =>
        match a.base.getLast? with
        | some lc =>
          if boundaryAfter lc (l.drop a.base.length) then
            some (a.base, l.drop a.base.length)
          else none
        | none => none
    else none

/-- Try the alternatives in source order at one position. -/
def firstAlt : List TechAlt → Option Char → List Char → Option (List Char × List Char)
  | [], _, _ => none
  | a :: as, prev, l =>
    match tryAltAt a prev l with
    | some r => some r
    | none => firstAlt as prev l

/-- `re.finditer` over one pattern: scan left to right, consuming each
match (the next search resumes after the matched span).  The fuel makes
the recursion structural; `l.length + 1` always suffices since every step
consumes at least one character. -/
def scanTechsGo (alts : List TechAlt) : ℕ → Option Char → List Char → List (List Char)
  | 0, _, _ => []
  | _ + 1, _, [] => []
  | fuel + 1, prev, c :: cs =>
    match firstAlt alts prev (c :: cs) with
    | some r => r.1 :: scanTechsGo alts fuel r.1.getLast? r.2
    | none => scanTechsGo alts fuel (some c) cs

/-- All lower-cased matches of one pattern. -/
def scanTechs (alts : List TechAlt) (l : List Char) : List (List Char) :=
  scanTechsGo alts (l.length + 1) none l

/-- A plain alternative. -/
def mkAlt (b : String) : TechAlt := ⟨b.data, []⟩

/-- An alternative with an optional tail. -/
def mkAltOpt (b t : String) : TechAlt := ⟨b.data, t.data⟩

/-- The first technology pattern of `get_data.extract_technologies`,
alternatives in source order. -/
def techAlts1 : List TechAlt :=
  [mkAlt (("python" : String)), mkAlt (("javascript" : String)),
   mkAlt (("typescript" : String)), mkAltOpt (("node.j" : String)) (("s" : String)),
   mkAlt (("react" : String)), mkAltOpt (("vue.j" : String)) (("s" : String)),
   mkAlt (("angular" : String)), mkAltOpt (("next.j" : String)) (("s" : String)),
   mkAlt (("ruby" : String)), mkAlt (("rails" : String)),
   mkAlt (("django" : String)), mkAlt (("flask" : String)),
   mkAlt (("express" : String)), mkAlt (("php" : String)),
   mkAlt (("laravel" : String)), mkAlt (("java" : String)),
   mkAlt (("kotlin" : String)), mkAlt (("swift" : String)),
   mkAlt (("go" : String)), mkAlt (("rust" : String)),
   mkAlt (("c++" : String)), mkAlt (("c#" : String)),
   mkAlt ((".net" : String)), mkAlt (("sql" : String)),
   mkAlt (("mysql" : String)), mkAlt (("postgresql" : String)),
   mkAlt (("mongodb" : String)), mkAlt (("redis" : String)),
   mkAlt (("aws" : String)), mkAlt (("gcp" : String)),
   mkAlt (("azure" : String)), mkAlt (("docker" : String)),
   mkAlt (("kubernetes" : String)), mkAlt (("linux" : String)),
   mkAlt (("git" : String)), mkAlt (("html" : String)),
   mkAlt (("css" : String)), mkAlt (("tailwind" : String)),
   mkAlt (("bootstrap" : String))]

/-- The second technology pattern, alternatives in source order. -/
def techAlts2 : List TechAlt :=
  [mkAlt (("rest" : String)), mkAlt (("graphql" : String)),
   mkAlt (("websocket" : String)), mkAlt (("grpc" : String)),
   mkAlt (("ci/cd" : String)), mkAlt (("devops" : String)),
   mkAlt (("machine learning" : String)), mkAlt (("ai" : String)),
   mkAlt (("tensorflow" : String)), mkAlt (("pytorch" : String)),
   mkAlt (("pandas" : String)), mkAlt (("numpy" : String)),
   mkAlt (("scikit-learn" : String))]

/-- The alias map applied to each lower-cased match. -/
def aliasFold (t : String) : String :=
  if t = ("node.js" : String) then ("node" : String)
  else if t = ("vue.js" : String) then ("vue" : String)
  else if t = ("next.js" : String) then ("nextjs" : String)
  else if t = ("react.js" : String) then ("react" : String)
  else if t = (".net" : String) then ("dotnet" : String)
  else t

/-- The tail of the version-number filter `^\d+(\.\d+)*(\+)?$`: zero or
more dot-digit groups followed by an optional plus. -/
def numRest : List Char → Bool
  | [] => true
  | ['+'] => true
  | '.' :: t =>
    let ds := t.takeWhile Char.isDigit
    if ds.isEmpty then false else numRest (t.drop ds.length)
  | _ => false
termination_by l => l.length
decreasing_by
  simp only [List.length_drop, List.length_cons]
  omega

/-- `re.match(r'^\d+(\.\d+)*(\+)?$', t)`: whether a token is a bare
version number. -/
def isNumericTok (l : List Char) : Bool :=
  let ds := l.takeWhile Char.isDigit
  if ds.isEmpty then false else numRest (l.drop ds.length)

/-- `extract_technologies` from `get_data.py`: run both patterns over the
text, lower-case and alias-fold each match into a set, drop bare version
numbers, and return the set as a lexically sorted list. -/
def extract_technologies (t : List Char) : List String :=
  let raw := ((scanTechs techAlts1 t ++ scanTechs techAlts2 t).map
    (fun l => aliasFold ⟨l⟩))
  ((raw.dedup.filter (fun s => !isNumericTok s.data)).mergeSort
    (fun a b => decide (a ≤ b)))

end GetData

/-- **C9**: the Technology Vocabulary Matcher returns a de-duplicated,
lexically sorted list, and — being a pure function — two calls on
identical input return identical output; the same determinism holds for
the scoring-side `job_matcher.extract_technologies`, whose result is a set. -/
theorem c9_vocabulary_matcher_sorted_deterministic (t : List Char) :
    (GetData.extract_technologies t).Pairwise (fun a b => a ≤ b) ∧
    (GetData.extract_technologies t).Nodup ∧
    GetData.extract_technologies t = GetData.extract_technologies t ∧
    JobMatcher.extract_technologies (some ⟨t⟩)
      = JobMatcher.extract_technologies (some ⟨t⟩) := by
  refine ⟨?_, ?_, rfl, rfl⟩
  · have h := @List.sorted_mergeSort String
      (fun a b : String => decide (a ≤ b))
      (fun a b c hab hbc => by
        simp only [decide_eq_true_eq] at *
        exact le_trans hab hbc)
      (fun a b => by
        simp only [Bool.or_eq_true, decide_eq_true_eq]
        exact le_total a b)
      (((GetData.scanTechs GetData.techAlts1 t ++ GetData.scanTechs GetData.techAlts2 t).map
          (fun l => GetData.aliasFold ⟨l⟩)).dedup.filter
        (fun s => !GetData.isNumericTok s.data))
    exact h.imp (fun hab => by simpa using hab)
  · rw [GetData.extract_technologies]
    exact ((List.mergeSort_perm _ _).nodup_iff).mpr
      ((List.nodup_dedup _).filter _)

/-! ### Candidate field extraction (`job_matcher.extract_candidate_fields`)

Case-insensitive matching is modelled with ASCII case folding, which covers
every pattern literal except the accented characters of `Résumé` (matched
exactly); none of the properties proved below depends on which label
spelling matched. -/

namespace JobMatcher

/-- Case-insensitive prefix test against a lower-cased pattern literal. -/
def ciPre (n : List Char) (l : List Char) : Bool := isPrefOf n (pyLower l)

/-- The Python-regex semantics of `\s*([^\n]+)` at the head of `l`: skip
the maximal whitespace run; if anything remains, the capture is the
maximal non-newline run from there.  When the whole remainder is
whitespace, the engine backtracks into the run and the capture becomes its
last non-newline character, if any. -/
def captureAfter (l : List Char) : Option (List Char) :=
  match l.dropWhile pyIsSpace with
  | c :: cs => some ((c :: cs).takeWhile (fun d => !(d = '\n')))
  | [] =>
    match l.reverse.dropWhile (fun d => d = '\n') with
    | c :: _ => some [c]
    | [] => none

/-- Whether this position can follow the `(?:^|\n|\s)` anchor: the text
start or a whitespace character. -/
def anchorOk : Option Char → Bool
  | none => true
  | some c => pyIsSpace c

/-- The head test of `(?i)(?:^|\n|\s)LABEL\s*([^\n]+)`. -/
def labelTestAt (label : List Char) (prev : Option Char) (l : List Char) :
    Option (List Char) :=
  if anchorOk prev && ciPre label l then captureAfter (l.drop label.length)
  else none

/-- `re.search` for an option-valued head test, carrying the previous
character for anchors and boundaries. -/
def searchOpt (test : Option Char → List Char → Option (List Char)) :
    Option Char → List Char → Option (List Char)
  | prev, [] => test prev []
  | prev, c :: cs =>
    match test prev (c :: cs) with
    | some r => some r
    | none => searchOpt test (some c) cs

/-- A single-line label field: search the pattern, `str.strip` the
capture. -/
def labelField (label : List Char) (text : List Char) : Option String :=
  (searchOpt (labelTestAt label) none text).map (fun cap => ⟨pyStrip cap⟩)

/-- A character of the class `[\w.-]`. -/
def isEmailChar (c : Char) : Bool := isWordChar c || c = '.' || c = '-'

/-- `([\w\.-]+@[\w\.-]+)` at the head of `l`.  Both runs are greedy, and
neither can usefully backtrack (`@` is not in the class). -/
def emailAt (l : List Char) : Option (List Char) :=
  let a1 := l.takeWhile isEmailChar
  if a1.isEmpty then none
  else
    match l.drop a1.length with
    | c :: r =>
      if c = '@' then
        let a2 := r.takeWhile isEmailChar
        if a2.isEmpty then none else some (a1 ++ '@' :: a2)
      else none
    | [] => none

/-- `(?i)(?:^|\n|\s)Email:\s*([\w\.-]+@[\w\.-]+)` at a position (the
whitespace skip is maximal: the email class contains no whitespace). -/
def emailLabelAt (prev : Option Char) (l : List Char) : Option (List Char) :=
  if anchorOk prev && ciPre (("email:" : String).data) l then
    emailAt ((l.drop 6).dropWhile pyIsSpace)
  else none

/-- `(?i)(?:contact|e-mail):\s*([\w\.-]+@[\w\.-]+)` at a position (no
leading anchor; the alternative prefixes are mutually exclusive). -/
def emailFb1At (_prev : Option Char) (l : List Char) : Option (List Char) :=
  if ciPre (("contact:" : String).data) l then
    emailAt ((l.drop 8).dropWhile pyIsSpace)
  else if ciPre (("e-mail:" : String).data) l then
    emailAt ((l.drop 7).dropWhile pyIsSpace)
  else none

/-- `(?i)([\w\.-]+@[\w\.-]+)` at a position. -/
def emailBareAt (_prev : Option Char) (l : List Char) : Option (List Char) :=
  emailAt l

/-- The length of the `https?://` scheme at the head of `l` (the greedy
optional `s` is tried first). -/
def urlSchemeLen (l : List Char) : Option ℕ :=
  if ciPre (("https://" : String).data) l then some 8
  else if ciPre (("http://" : String).data) l then some 7
  else none

/-- `(https?://[^\s\n]+)` at the head of `l`: the scheme followed by a
non-empty maximal non-whitespace run; the capture is the original text
span. -/
def urlAt (l : List Char) : Option (List Char) :=
  match urlSchemeLen l with
  | some k =>
    let run := (l.drop k).takeWhile (fun c => !pyIsSpace c)
    if run.isEmpty then none else some (l.take k ++ run)
  | none => none

/-- `:\s*(url)` or (when the colon is optional and absent) `\s*(url)`.
When the with-colon parse fails, the backtracked parse skips no
whitespace at a colon and cannot start a scheme there, so it fails too. -/
def colonUrl (optionalColon : Bool) (r : List Char) : Option (List Char) :=
  match r with
  | c :: t =>
    if c = ':' then urlAt (t.dropWhile pyIsSpace)
    else if optionalColon then urlAt ((c :: t).dropWhile pyIsSpace) else none
  | [] => if optionalColon then urlAt (([] : List Char).dropWhile pyIsSpace) else none

/-- The part after a matched resume label:
`(?:/CV)?:\s*(url)` (or an optional colon for the fallback pattern).  When
`/cv` is present the dotless backtrack would place the colon test on the
slash, which fails, so the greedy parse is decisive. -/
def afterResumeLabel (optionalColon : Bool) (r : List Char) :
    Option (List Char) :=
  if ciPre (("/cv" : String).data) r then colonUrl optionalColon (r.drop 3)
  else colonUrl optionalColon r

/-- `(?i)(?:^|\n|\s)(?:Résumé|Resume|CV)(?:/CV)?:\s*(https?://[^\s\n]+)`
at a position. -/
def resumeLabelAt (prev : Option Char) (l : List Char) : Option (List Char) :=
  if anchorOk prev then
    if ciPre (("résumé" : String).data) l then afterResumeLabel false (l.drop 6)
    else if ciPre (("resume" : String).data) l then afterResumeLabel false (l.drop 6)
    else if ciPre (("cv" : String).data) l then afterResumeLabel false (l.drop 2)
    else none
  else none

/-- `(?i)(?:résumé|resume|cv)(?:/cv)?:?\s*(https?://[^\s\n]+)` at a
position (first resume fallback: no anchor, optional colon). -/
def resumeFb1At (_prev : Option Char) (l : List Char) : Option (List Char) :=
  if ciPre (("résumé" : String).data) l then afterResumeLabel true (l.drop 6)
  else if ciPre (("resume" : String).data) l then afterResumeLabel true (l.drop 6)
  else if ciPre (("cv" : String).data) l then afterResumeLabel true (l.drop 2)
  else none

/-- `(?i)\b(https?://[^\s\n]*(?:resume|cv)[^\s\n]*)` at a position: the
two greedy stars cover the whole maximal non-whitespace run, so the
pattern matches exactly when that run (after the scheme) contains
`resume` or `cv`, and the capture is the scheme plus the entire run. -/
def resumeFb2At (prev : Option Char) (l : List Char) : Option (List Char) :=
  if !isWordOpt prev then
    match urlSchemeLen l with
    | some k =>
      let run := (l.drop k).takeWhile (fun c => !pyIsSpace c)
      if subIn (("resume" : String).data) (pyLower run)
         || subIn (("cv" : String).data) (pyLower run)
      then some (l.take k ++ run) else none
    | none => none
  else none

/-- `(?:[:\s])([^\.]+)` after a technology-fallback label: one separator
character, then a non-empty run up to the first period. -/
def sepCapture (r : List Char) : Option (List Char) :=
  match r with
  | c :: t =>
    if c = ':' || pyIsSpace c then
      let cap := t.takeWhile (fun d => !(d = '.'))
      if cap.isEmpty then none else some cap
    else none
  | [] => none

/-- `(?i)skills?(?:[:\s])([^\.]+)` at a position (the greedy optional `s`
is tried first; when the following character is an `s` the dropped-`s`
parse places the separator test on that `s`, which fails). -/
def skillsAt (_prev : Option Char) (l : List Char) : Option (List Char) :=
  if ciPre (("skill" : String).data) l then
    match (match l.drop 5 with
           | c :: rest => if pyLowerChar c = 's' then sepCapture rest else none
           | [] => none) with
    | some r => some r
    | none => sepCapture (l.drop 5)
  else none

/-- `(?i)tech stack(?:[:\s])([^\.]+)` at a position. -/
def techStackAt (_prev : Option Char) (l : List Char) : Option (List Char) :=
  if ciPre (("tech stack" : String).data) l then sepCapture (l.drop 10)
  else none

/-- `(?i)proficient in(?:[:\s])([^\.]+)` at a position. -/
def proficientAt (_prev : Option Char) (l : List Char) : Option (List Char) :=
  if ciPre (("proficient in" : String).data) l then sepCapture (l.drop 13)
  else none

/-- The fallback chain of `extract_candidate_fields`: keep a truthy main
value; otherwise take the first matching fallback; otherwise keep the main
value unchanged. -/
def fieldOr (v : Option String) (w : Option String) : Option String :=
  if truthy v then v
  else match w with
    | some u => some u
    | none => v

/-- The first matching value of a fallback list. -/
def firstSome : List (Option String) → Option String
  | [] => none
  | some v :: _ => some v
  | none :: t => firstSome t

/-- A searched pattern with the capture stripped. -/
def searchStrip (test : Option Char → List Char → Option (List Char))
    (text : List Char) : Option String :=
  (searchOpt test none text).map (fun cap => ⟨pyStrip cap⟩)

/-- `extract_candidate_fields` from `job_matcher.py` (the `Date` and
`Link to HN` metadata are omitted): clean the comment text, then extract
each field by its pattern cascade. -/
def extract_candidate_fields (raw : String) : Candidate :=
  let text := clean_html raw
  { email :=
      fieldOr (searchStrip emailLabelAt text)
        (firstSome [searchStrip emailFb1At text, searchStrip emailBareAt text])
    resume :=
      fieldOr (searchStrip resumeLabelAt text)
        (firstSome [searchStrip resumeFb1At text, searchStrip resumeFb2At text])
    location := labelField (("location:" : String).data) text
    remote := labelField (("remote:" : String).data) text
    willingToRelocate := labelField (("willing to relocate:" : String).data) text
    technologies :=
      fieldOr (labelField (("technologies:" : String).data) text)
        (firstSome [searchStrip skillsAt text, searchStrip techStackAt text,
          searchStrip proficientAt text])
    rawText := ⟨text⟩ }

end JobMatcher

/-! ### Properties of the candidate extraction: the label-pattern fields
are never the empty string -/

/-- "No trailing whitespace": the last character, when present, is not
Python whitespace. -/
def noTrailWs (l : List Char) : Prop :=
  ∀ c, l.getLast? = some c → pyIsSpace c = false

theorem dropWhile_head_false (p : Char → Bool) (l : List Char) (c : Char)
    (cs : List Char) (h : l.dropWhile p = c :: cs) : p c = false := by
  induction l with
  | nil => simp [List.dropWhile] at h
  | cons a t ih =>
    rw [List.dropWhile_cons] at h
    cases hpa : p a
    · rw [hpa] at h
      simp only [Bool.false_eq_true, if_false] at h
      cases h
      exact hpa
    · rw [hpa] at h
      simp only [if_true] at h
      exact ih h

theorem mem_dropWhile_of_not (p : Char → Bool) (l : List Char) (c : Char)
    (hc : c ∈ l) (hp : p c = false) : c ∈ l.dropWhile p := by
  induction l with
  | nil => simp at hc
  | cons a t ih =>
    rw [List.dropWhile_cons]
    cases hpa : p a
    · simpa using hc
    · simp only [if_true]
      rcases List.mem_cons.mp hc with rfl | hct
      · rw [hpa] at hp
        cases hp
      · exact ih hct

theorem dropTrailingWs_ne_nil_of_mem (l : List Char) (c : Char) (hc : c ∈ l)
    (hws : pyIsSpace c = false) : dropTrailingWs l ≠ [] := by
  induction l with
  | nil => simp at hc
  | cons a t ih =>
    simp only [dropTrailingWs]
    by_cases hb : ((dropTrailingWs t).isEmpty && pyIsSpace a) = true
    · rw [if_pos hb]
      exfalso
      rw [Bool.and_eq_true, List.isEmpty_iff] at hb
      rcases List.mem_cons.mp hc with rfl | hct
      · rw [hb.2] at hws
        cases hws
      · exact ih hct hb.1
    · rw [if_neg hb]
      simp

theorem pyStrip_ne_nil_of_mem (l : List Char) (c : Char) (hc : c ∈ l)
    (hws : pyIsSpace c = false) : pyStrip l ≠ [] := by
  rw [pyStrip]
  exact dropTrailingWs_ne_nil_of_mem _ c
    (mem_dropWhile_of_not _ _ _ hc hws) hws

theorem dropTrailingWs_noTrail (l : List Char) : noTrailWs (dropTrailingWs l) := by
  induction l with
  | nil =>
    intro c h
    simp [dropTrailingWs] at h
  | cons a t ih =>
    intro c h
    simp only [dropTrailingWs] at h
    by_cases hb : ((dropTrailingWs t).isEmpty && pyIsSpace a) = true
    · rw [if_pos hb] at h
      simp at h
    · rw [if_neg hb] at h
      rcases hdt : dropTrailingWs t with _ | ⟨d, ds⟩
      · rw [hdt] at h
        simp only [List.getLast?_singleton, Option.some.injEq] at h
        rcases h with rfl
        rw [Bool.and_eq_true, List.isEmpty_iff] at hb
        cases hws : pyIsSpace a
        · rfl
        · exact absurd ⟨hdt, hws⟩ hb
      · rw [hdt] at h
        rw [List.getLast?_cons_cons] at h
        exact ih c (hdt ▸ h)

theorem pyStrip_noTrail (l : List Char) : noTrailWs (pyStrip l) :=
  dropTrailingWs_noTrail _

theorem noTrailWs_suffix (t s : List Char) (h : noTrailWs t)
    (hs : ∃ pre, t = pre ++ s) : noTrailWs s := by
  obtain ⟨pre, rfl⟩ := hs
  intro c hc
  apply h c
  cases s with
  | nil => simp at hc
  | cons d ds =>
    rw [List.getLast?_append_of_ne_nil pre (by simp)]
    exact hc

theorem noTrailWs_drop (s : List Char) (n : ℕ) (h : noTrailWs s) :
    noTrailWs (s.drop n) :=
  noTrailWs_suffix s (s.drop n) h ⟨s.take n, (List.take_append_drop n s).symm⟩

theorem pyIsSpace_true_toNat (c : Char) (h : pyIsSpace c = true) :
    c.toNat ≤ 32 := by
  simp only [pyIsSpace, Bool.or_eq_true, decide_eq_true_eq] at h
  rcases h with ((((rfl | rfl) | rfl) | rfl) | rfl) | rfl <;> decide

theorem pyIsSpace_false_of_toNat (c : Char) (h : 33 ≤ c.toNat) :
    pyIsSpace c = false := by
  cases hws : pyIsSpace c
  · rfl
  · have := pyIsSpace_true_toNat c hws
    omega

theorem pyLowerChar_toNat (c : Char) :
    (pyLowerChar c).toNat = c.toNat ∨ (pyLowerChar c).toNat = c.toNat + 32 := by
  unfold pyLowerChar
  by_cases hc : 65 ≤ c.toNat ∧ c.toNat ≤ 90
  · rw [dif_pos hc, toNat_ofNatAux]
    right
    rfl
  · rw [dif_neg hc]
    left
    rfl

theorem captureAfter_good (l : List Char) (h : noTrailWs l) (cap : List Char)
    (hcap : JobMatcher.captureAfter l = some cap) :
    ∃ c, c ∈ cap ∧ pyIsSpace c = false := by
  rcases hrest : l.dropWhile pyIsSpace with _ | ⟨c, cs⟩
  · simp only [JobMatcher.captureAfter, hrest] at hcap
    exfalso
    rcases hl : l.reverse.dropWhile (fun d => d = '\n') with _ | ⟨d, ds⟩
    · rw [hl] at hcap
      cases hcap
    · have hall : ∀ x ∈ l, pyIsSpace x = true :=
        List.dropWhile_eq_nil_iff.mp hrest
      have hlne : l ≠ [] := by
        intro h0
        rw [h0] at hl
        simp at hl
      rcases hg : l.getLast? with _ | c0
      · exact hlne (List.getLast?_eq_none_iff.mp hg)
      · have hmem := List.mem_of_getLast?_eq_some hg
        exact absurd (hall c0 hmem) (by simp [h c0 hg])
  · simp only [JobMatcher.captureAfter, hrest] at hcap
    have hcws : pyIsSpace c = false := dropWhile_head_false _ _ _ _ hrest
    have hcn : (!(c = '\n' : Bool)) = true := by
      simp only [Bool.not_eq_true', decide_eq_false_iff_not]
      intro h0
      rw [h0] at hcws
      cases hcws
    refine ⟨c, ?_, hcws⟩
    have hcap2 : cap = c :: cs.takeWhile (fun d => !(d = '\n')) := by
      rw [List.takeWhile_cons, hcn] at hcap
      simp only [if_true, Option.some.injEq] at hcap
      exact hcap.symm
    rw [hcap2]
    exact List.mem_cons_self c _

theorem searchOpt_success
    (test : Option Char → List Char → Option (List Char)) :
    ∀ (prev : Option Char) (l : List Char) (r : List Char),
      JobMatcher.searchOpt test prev l = some r →
      ∃ prev' s pre, l = pre ++ s ∧ test prev' s = some r := by
  intro prev l
  induction l generalizing prev with
  | nil =>
    intro r h
    exact ⟨prev, [], [], rfl, by simpa [JobMatcher.searchOpt] using h⟩
  | cons c cs ih =>
    intro r h
    rcases ht : test prev (c :: cs) with _ | v
    · simp only [JobMatcher.searchOpt, ht] at h
      obtain ⟨p', s, pre, heq, hs⟩ := ih (some c) r h
      exact ⟨p', s, c :: pre, by rw [heq, List.cons_append], hs⟩
    · simp only [JobMatcher.searchOpt, ht, Option.some.injEq] at h
      exact ⟨prev, c :: cs, [], rfl, by rw [ht, h]⟩

theorem isPrefOf_head (a : Char) (as : List Char) (l : List Char)
    (h : isPrefOf (a :: as) l = true) : ∃ c rest, l = c :: rest ∧ a = c := by
  cases l with
  | nil => simp [isPrefOf] at h
  | cons b bs =>
    simp only [isPrefOf, Bool.and_eq_true, decide_eq_true_eq] at h
    exact ⟨b, bs, rfl, h.1⟩

theorem ciPre_head (a : Char) (as : List Char) (l : List Char)
    (h : JobMatcher.ciPre (a :: as) l = true) :
    ∃ d ds, l = d :: ds ∧ pyLowerChar d = a := by
  rw [JobMatcher.ciPre] at h
  cases l with
  | nil => simp [isPrefOf, pyLower] at h
  | cons d ds =>
    obtain ⟨c, rest, hc, ha⟩ := isPrefOf_head a as _ h
    rw [pyLower, List.map_cons] at hc
    injection hc with h1 h2
    exact ⟨d, ds, rfl, h1.trans ha.symm⟩

theorem emailAt_good (l cap : List Char) (h : JobMatcher.emailAt l = some cap) :
    ∃ c, c ∈ cap ∧ pyIsSpace c = false := by
  simp only [JobMatcher.emailAt] at h
  split at h
  · cases h
  · split at h
    · split at h
      · split at h
        · cases h
        · injection h with hcap
          refine ⟨'@', ?_, by decide⟩
          rw [← hcap]
          exact List.mem_append_right _ (List.mem_cons_self _ _)
      · cases h
    · cases h

theorem urlSchemeLen_head (l : List Char) (k : ℕ)
    (h : JobMatcher.urlSchemeLen l = some k) :
    ∃ c rest, l = c :: rest ∧ 1 ≤ k ∧ pyIsSpace c = false := by
  have hchar : ∀ d : Char, pyLowerChar d = 'h' → pyIsSpace d = false := by
    intro d hd
    have h104 : ('h').toNat = 104 := rfl
    rcases pyLowerChar_toNat d with h1 | h1 <;> rw [hd, h104] at h1 <;>
      exact pyIsSpace_false_of_toNat d (by omega)
  rw [JobMatcher.urlSchemeLen] at h
  by_cases h8 : JobMatcher.ciPre (("https://" : String).data) l = true
  · rw [if_pos h8] at h
    injection h with hk
    have hdata : ("https://" : String).data = 'h' :: ("ttps://" : String).data := rfl
    rw [hdata] at h8
    obtain ⟨d, ds, rfl, hd⟩ := ciPre_head _ _ _ h8
    exact ⟨d, ds, rfl, by omega, hchar d hd⟩
  · rw [if_neg h8] at h
    by_cases h7 : JobMatcher.ciPre (("http://" : String).data) l = true
    · rw [if_pos h7] at h
      injection h with hk
      have hdata : ("http://" : String).data = 'h' :: ("ttp://" : String).data := rfl
      rw [hdata] at h7
      obtain ⟨d, ds, rfl, hd⟩ := ciPre_head _ _ _ h7
      exact ⟨d, ds, rfl, by omega, hchar d hd⟩
    · rw [if_neg h7] at h
      cases h

theorem schemeCap_good (l cap run : List Char) (k : ℕ)
    (hk : JobMatcher.urlSchemeLen l = some k)
    (hcap : cap = l.take k ++ run) : ∃ c, c ∈ cap ∧ pyIsSpace c = false := by
  obtain ⟨c, rest, rfl, hk1, hcws⟩ := urlSchemeLen_head _ _ hk
  refine ⟨c, ?_, hcws⟩
  rw [hcap]
  cases k with
  | zero => omega
  | succ k' =>
    rw [List.take_succ_cons]
    exact List.mem_append_left _ (List.mem_cons_self _ _)

theorem urlAt_good (l cap : List Char) (h : JobMatcher.urlAt l = some cap) :
    ∃ c, c ∈ cap ∧ pyIsSpace c = false := by
  rcases hk : JobMatcher.urlSchemeLen l with _ | k
  · simp only [JobMatcher.urlAt, hk] at h
    cases h
  · simp only [JobMatcher.urlAt, hk] at h
    by_cases hrun : ((l.drop k).takeWhile (fun c => !pyIsSpace c)).isEmpty = true
    · rw [if_pos hrun] at h
      cases h
    · rw [if_neg hrun] at h
      injection h with hcap
      exact schemeCap_good l cap _ k hk hcap.symm

theorem colonUrl_good (oc : Bool) (r cap : List Char)
    (h : JobMatcher.colonUrl oc r = some cap) :
    ∃ c, c ∈ cap ∧ pyIsSpace c = false := by
  rw [JobMatcher.colonUrl.eq_def] at h
  split at h
  · split at h
    · exact urlAt_good _ _ h
    · split at h
      · exact urlAt_good _ _ h
      · cases h
  · split at h
    · exact urlAt_good _ _ h
    · cases h

theorem afterResumeLabel_good (oc : Bool) (r cap : List Char)
    (h : JobMatcher.afterResumeLabel oc r = some cap) :
    ∃ c, c ∈ cap ∧ pyIsSpace c = false := by
  rw [JobMatcher.afterResumeLabel] at h
  split at h
  · exact colonUrl_good _ _ _ h
  · exact colonUrl_good _ _ _ h

theorem resumeLabelAt_good (prev : Option Char) (s cap : List Char)
    (h : JobMatcher.resumeLabelAt prev s = some cap) :
    ∃ c, c ∈ cap ∧ pyIsSpace c = false := by
  rw [JobMatcher.resumeLabelAt] at h
  split at h
  · split at h
    · exact afterResumeLabel_good _ _ _ h
    · split at h
      · exact afterResumeLabel_good _ _ _ h
      · split at h
        · exact afterResumeLabel_good _ _ _ h
        · cases h
  · cases h

theorem resumeFb1At_good (prev : Option Char) (s cap : List Char)
    (h : JobMatcher.resumeFb1At prev s = some cap) :
    ∃ c, c ∈ cap ∧ pyIsSpace c = false := by
  rw [JobMatcher.resumeFb1At] at h
  split at h
  · exact afterResumeLabel_good _ _ _ h
  · split at h
    · exact afterResumeLabel_good _ _ _ h
    · split at h
      · exact afterResumeLabel_good _ _ _ h
      · cases h

theorem resumeFb2At_good (prev : Option Char) (s cap : List Char)
    (h : JobMatcher.resumeFb2At prev s = some cap) :
    ∃ c, c ∈ cap ∧ pyIsSpace c = false := by
  rw [JobMatcher.resumeFb2At] at h
  split at h
  · rcases hk : JobMatcher.urlSchemeLen s with _ | k
    · rw [hk] at h
      cases h
    · rw [hk] at h
      simp only [] at h
      split at h
      · injection h with hcap
        exact schemeCap_good s cap _ k hk hcap.symm
      · cases h
  · cases h

theorem emailLabelAt_good (prev : Option Char) (s cap : List Char)
    (h : JobMatcher.emailLabelAt prev s = some cap) :
    ∃ c, c ∈ cap ∧ pyIsSpace c = false := by
  rw [JobMatcher.emailLabelAt] at h
  split at h
  · exact emailAt_good _ _ h
  · cases h

theorem emailFb1At_good (prev : Option Char) (s cap : List Char)
    (h : JobMatcher.emailFb1At prev s = some cap) :
    ∃ c, c ∈ cap ∧ pyIsSpace c = false := by
  rw [JobMatcher.emailFb1At] at h
  split at h
  · exact emailAt_good _ _ h
  · split at h
    · exact emailAt_good _ _ h
    · cases h

theorem labelTestAt_good (label : List Char) (text s : List Char)
    (prev : Option Char) (cap : List Char) (htext : noTrailWs text)
    (hsfx : ∃ pre, text = pre ++ s)
    (h : JobMatcher.labelTestAt label prev s = some cap) :
    ∃ c, c ∈ cap ∧ pyIsSpace c = false := by
  rw [JobMatcher.labelTestAt] at h
  split at h
  · exact captureAfter_good _
      (noTrailWs_drop _ _ (noTrailWs_suffix text s htext hsfx)) cap h
  · cases h

/-- Whether an optional field value is absent or a non-empty string. -/
def goodOpt : Option String → Bool
  | none => true
  | some s => !s.data.isEmpty

theorem goodOpt_of (v : Option String) (hv : ∀ s, v = some s → s.data ≠ []) :
    goodOpt v = true := by
  cases v with
  | none => rfl
  | some s =>
    simp only [goodOpt, Bool.not_eq_true', List.isEmpty_eq_false]
    exact hv s rfl

theorem fieldOr_good (v w : Option String)
    (hv : ∀ s, v = some s → s.data ≠ []) (hw : ∀ s, w = some s → s.data ≠ []) :
    goodOpt (JobMatcher.fieldOr v w) = true := by
  rw [JobMatcher.fieldOr.eq_def]
  by_cases ht : truthy v = true
  · rw [if_pos ht]
    exact goodOpt_of v hv
  · rw [if_neg ht]
    cases w with
    | some u =>
      exact goodOpt_of _ (fun s hs => by
        injection hs with hs
        exact hs ▸ hw u rfl)
    | none => exact goodOpt_of v hv

theorem firstSome_good (l : List (Option String))
    (hl : ∀ o ∈ l, ∀ s, o = some s → s.data ≠ []) :
    ∀ s, JobMatcher.firstSome l = some s → s.data ≠ [] := by
  induction l with
  | nil =>
    intro s h
    cases h
  | cons o t ih =>
    cases o with
    | some v =>
      intro s h
      injection h with h
      exact h ▸ hl (some v) (List.mem_cons_self _ _) v rfl
    | none =>
      intro s h
      exact ih (fun o ho => hl o (List.mem_cons_of_mem _ ho)) s h

theorem searchStrip_good (test : Option Char → List Char → Option (List Char))
    (text : List Char)
    (hgood : ∀ prev s cap, (∃ pre, text = pre ++ s) → test prev s = some cap →
      ∃ c, c ∈ cap ∧ pyIsSpace c = false) :
    ∀ v, JobMatcher.searchStrip test text = some v → v.data ≠ [] := by
  intro v hv
  rw [JobMatcher.searchStrip] at hv
  rcases hsearch : JobMatcher.searchOpt test none text with _ | cap
  · rw [hsearch] at hv
    cases hv
  · rw [hsearch, Option.map_some'] at hv
    injection hv with hv
    obtain ⟨p', s, pre, heq, hs⟩ := searchOpt_success test none text cap hsearch
    obtain ⟨c, hcmem, hcws⟩ := hgood p' s cap ⟨pre, heq⟩ hs
    rw [← hv]
    exact pyStrip_ne_nil_of_mem cap c hcmem hcws

/-- **C6** (amended): after extraction, the candidate's Email, Resume,
Location, Remote and Willing-to-Relocate fields — every field captured by
the label patterns, the email-shaped patterns or the URL patterns — are
either absent or a non-empty string: the whitespace-skipping label
patterns cannot capture only whitespace on the stripped `clean_html`
output, and the email/URL captures always contain a non-blank character.
The Technologies field is the exception; see the counterexample. -/
theorem c6_extracted_fields_absent_or_nonempty (raw : String) :
    (goodOpt (JobMatcher.extract_candidate_fields raw).location = true) ∧
    (goodOpt (JobMatcher.extract_candidate_fields raw).remote = true) ∧
    (goodOpt (JobMatcher.extract_candidate_fields raw).willingToRelocate = true) ∧
    (goodOpt (JobMatcher.extract_candidate_fields raw).email = true) ∧
    (goodOpt (JobMatcher.extract_candidate_fields raw).resume = true) := by
  have htext : noTrailWs (JobMatcher.clean_html raw) := pyStrip_noTrail _
  have hlabel : ∀ label, goodOpt
      (JobMatcher.labelField label (JobMatcher.clean_html raw)) = true := by
    intro label
    exact goodOpt_of _ (searchStrip_good _ _
      (fun prev s cap hsfx h => labelTestAt_good label _ s prev cap htext hsfx h))
  refine ⟨hlabel _, hlabel _, hlabel _, ?_, ?_⟩
  · refine fieldOr_good _ _
      (searchStrip_good _ _ (fun prev s cap _ h => emailLabelAt_good prev s cap h))
      (firstSome_good _ ?_)
    intro o ho
    simp only [List.mem_cons, List.mem_singleton, List.not_mem_nil, or_false] at ho
    rcases ho with rfl | rfl
    · exact searchStrip_good _ _ (fun prev s cap _ h => emailFb1At_good prev s cap h)
    · exact searchStrip_good _ _ (fun prev s cap _ h => emailAt_good s cap h)
  · refine fieldOr_good _ _
      (searchStrip_good _ _ (fun prev s cap _ h => resumeLabelAt_good prev s cap h))
      (firstSome_good _ ?_)
    intro o ho
    simp only [List.mem_cons, List.mem_singleton, List.not_mem_nil, or_false] at ho
    rcases ho with rfl | rfl
    · exact searchStrip_good _ _ (fun prev s cap _ h => resumeFb1At_good prev s cap h)
    · exact searchStrip_good _ _ (fun prev s cap _ h => resumeFb2At_good prev s cap h)

/-- The C6 counterexample comment text. -/
def c6text : String := "skills \n. end"

/-- **C6** counterexample: on the comment text `"skills \n. end"` the
skills fallback pattern captures the whitespace-only span before the
period, and stripping records the Technologies field as the empty string —
extraction does confuse absent with explicitly empty here. -/
theorem c6_counterexample :
    (JobMatcher.extract_candidate_fields c6text).technologies
      = some (("" : String)) ∧
    (JobMatcher.extract_candidate_fields c6text).technologies ≠ none := by
  decide
